import Mathlib

/-!
Shallow embedding of the ShiTu (pai-smart-go) RAG knowledge service core, with
theorems checking the natural-language specification against the code.

Conventions of the embedding:
* Go strings are Lean `String`s; where the code manipulates runes (`[]rune`)
  we use `List Char`, and where it manipulates raw bytes (Go `len`/slicing on
  a `string`) we use `List Nat` of UTF-8 bytes.
* Machine integers are `Nat`/`Int`.
* External stores (MySQL tables, Redis keys, MinIO objects, the Elasticsearch
  index, Kafka offsets) are explicit state records; each Go function that
  touches them becomes a state transformer. Fallible operations return
  `Except`/`Option`.
* Embedding vectors are opaque: the embedder is a parameter `embed : String → V`.
-/

namespace ShiTu

/-! ## Text splitter

Source: `internal/repository/conversation_repository.go`, `splitText` and
`simpleSplit` (package pipeline). The Go loops advance an index by a positive
step; the step positivity that Go relies on for termination is passed as a
proof argument (with step 0 the Go loop would never terminate). -/

/-- Loop body of `splitText`: emit the window of `chunkSize` runes at position
`i`, stop once the window reaches the end of the text (`end == len(runes)` in
the source breaks after appending the final, possibly truncated, window). -/
def chunkLoop (runes : List Char) (chunkSize step : Nat) (hstep : 0 < step)
    (i : Nat) : List (List Char) :=
  if _h : i < runes.length then
    if runes.length ≤ i + chunkSize then
      [(runes.drop i).take chunkSize]
    else
      (runes.drop i).take chunkSize :: chunkLoop runes chunkSize step hstep (i + step)
  else []
termination_by runes.length - i
decreasing_by omega

/-- Loop body of `simpleSplit`: fixed-size windows, no overlap, no early break. -/
def simpleSplitLoop (runes : List Char) (chunkSize : Nat) (hcs : 0 < chunkSize)
    (i : Nat) : List (List Char) :=
  if _h : i < runes.length then
    (runes.drop i).take chunkSize :: simpleSplitLoop runes chunkSize hcs (i + chunkSize)
  else []
termination_by runes.length - i
decreasing_by omega

/-- `simpleSplit` from the source: non-overlapping fixed-size windows; empty
text yields nil. (For `chunkSize = 0` the Go loop would not terminate; the
model returns `[]` in that unreachable configuration.) -/
def simpleSplit (text : List Char) (chunkSize : Nat) : List (List Char) :=
  if text.length = 0 then []
  else if hcs : 0 < chunkSize then simpleSplitLoop text chunkSize hcs 0
  else []

/-- `splitText` from the source: overlapping windows of `chunkSize` runes
advancing by `chunkSize - chunkOverlap`; falls back to `simpleSplit` when
`chunkSize ≤ chunkOverlap`; empty text yields nil. -/
def splitText (text : List Char) (chunkSize chunkOverlap : Nat) : List (List Char) :=
  if hle : chunkSize ≤ chunkOverlap then simpleSplit text chunkSize
  else if text.length = 0 then []
  else chunkLoop text chunkSize (chunkSize - chunkOverlap) (by omega) 0

/-! ## Effective organisation tags

Source: `internal/service/user_service.go`, `GetUserEffectiveOrgTags`, and
`internal/model/org_tag.go`. The Go code builds a `TagID -> ParentTag` map
from a single list-all-tags call and walks parent edges breadth-first from the
user's declared tags, de-duplicating through a set. The Go result order is map
iteration order (unspecified); the model keeps insertion order, which is one
admissible order of the same set, and all theorems below are order-free. -/

/-- Tag row fields the closure uses (name, description, createdBy and the
timestamps of `model.OrganizationTag` play no role here and are omitted). -/
structure OrganizationTag where
  tagId : String
  parentTag : Option String
deriving DecidableEq, Repr

/-- Lookup in the `TagID -> ParentTag` map built by the loop
`for _, tag := range allTags`: later rows overwrite earlier ones, so the last
matching row wins. -/
def parentMapLookup (allTags : List OrganizationTag) (t : String) :
    Option (Option String) :=
  (allTags.reverse.find? (fun tag => tag.tagId == t)).map (fun tag => tag.parentTag)

/-- The one-step parent relation of the tag map: `a` steps to `b` when the map
holds a non-null parent `b` for `a`. -/
def parentStep (allTags : List OrganizationTag) (a b : String) : Prop :=
  parentMapLookup allTags a = some (some b)

/-- All parent values appearing in the tag map; every tag the BFS can enqueue
beyond its start set lies in this finite set (used for termination). -/
def parentCandidates (allTags : List OrganizationTag) : Finset String :=
  (allTags.filterMap (fun tag => tag.parentTag)).toFinset

/-- Breadth-first walk of parent edges: pop the queue head, look up its parent,
and when the parent is new add it to both the visited set and the queue
(`user_service.go`, loop of step 5). Visited insertion order stands in for the
Go set. -/
def bfsParents (allTags : List OrganizationTag) (visited queue : List String) :
    List String :=
  match queue with
  | [] => visited
  | current :: rest =>
    match _hl : parentMapLookup allTags current with
    | some (some p) =>
      if _hp : p ∈ visited then bfsParents allTags visited rest
      else bfsParents allTags (visited ++ [p]) (rest ++ [p])
    | some none => bfsParents allTags visited rest
    | none => bfsParents allTags visited rest
termination_by queue.length + 2 * ((parentCandidates allTags) \ visited.toFinset).card
decreasing_by
  · simp only [List.length_cons]
    omega
  · have hpmem : p ∈ parentCandidates allTags := by
      have h2 := _hl
      unfold parentMapLookup at h2
      obtain ⟨tag, hfind, htag⟩ := Option.map_eq_some'.mp h2
      have hmem2 : tag ∈ allTags.reverse := List.mem_of_find?_eq_some hfind
      rw [List.mem_reverse] at hmem2
      unfold parentCandidates
      rw [List.mem_toFinset, List.mem_filterMap]
      exact ⟨tag, hmem2, htag⟩
    have hcard : ((parentCandidates allTags) \ (visited ++ [p]).toFinset).card <
        ((parentCandidates allTags) \ visited.toFinset).card := by
      apply Finset.card_lt_card
      constructor
      · intro x hx
        rw [Finset.mem_sdiff] at hx ⊢
        refine ⟨hx.1, fun hv => hx.2 ?_⟩
        simp only [List.toFinset_append, Finset.mem_union, List.mem_toFinset] at hv ⊢
        exact Or.inl hv
      · intro hsub
        have hp1 : p ∈ (parentCandidates allTags) \ visited.toFinset := by
          rw [Finset.mem_sdiff, List.mem_toFinset]
          exact ⟨hpmem, _hp⟩
        have hp2 := hsub hp1
        rw [Finset.mem_sdiff] at hp2
        apply hp2.2
        simp [List.toFinset_append]
    simp only [List.length_append, List.length_cons, List.length_nil]
    omega
  · simp only [List.length_cons]
    omega
  · simp only [List.length_cons]
    omega

/-- Insert-if-absent fold mirroring step 4 of `GetUserEffectiveOrgTags`: the
declared tags seed both the visited set and the queue, keeping first
occurrences. -/
def dedupKeepFirst (l : List String) : List String :=
  l.foldl (fun acc t => if t ∈ acc then acc else acc ++ [t]) []

/-- Model of Go `strings.Split(s, ",")` by structural recursion over the
characters: pieces between commas, empty pieces kept, and the empty string
splitting to one empty piece, matching the Go semantics. -/
def splitCommaChars : List Char → List (List Char)
  | [] => [[]]
  | c :: rest =>
    if c = ',' then [] :: splitCommaChars rest
    else
      match splitCommaChars rest with
      | [] => [[c]]
      | w :: ws => (c :: w) :: ws

/-- Comma split on strings, wrapping `splitCommaChars`. -/
def goSplitComma (s : String) : List String :=
  (splitCommaChars s.data).map (fun cs => String.mk cs)

/-- Declared organisation tags of a user: the comma-split `org_tags` column;
empty column means no declared tags (the source early-returns `[]` there). -/
def declaredTags (orgTags : String) : List String :=
  if orgTags = "" then [] else goSplitComma orgTags

/-- `GetUserEffectiveOrgTags` from the source, as a function of the user's
`org_tags` column and the list-all-tags result: early return on an empty
column, then a de-duplicating seed loop and the breadth-first parent walk. -/
def getUserEffectiveOrgTags (orgTags : String) (allTags : List OrganizationTag) :
    List String :=
  if orgTags = "" then []
  else bfsParents allTags (dedupKeepFirst (goSplitComma orgTags))
    (dedupKeepFirst (goSplitComma orgTags))

/-! ## Hybrid search query construction

Source: `internal/service/search_service.go`. `HybridSearch` embeds the raw
query, normalizes it for the lexical clauses, and builds one Elasticsearch
request; on zero hits it rebuilds the request with the core phrase substituted
into the `must` and rescore clauses. The request is modeled as a record of the
fields the claims speak about; the float weights (0.2, 1.0, boost 3.0) are
constants in the source and are not part of the record. -/

/-- Go regexp `\s` character class: `[\t\n\f\r ]`. -/
def isGoWhitespace (c : Char) : Bool :=
  c = '\t' || c = '\n' || c = '\x0c' || c = '\r' || c = ' '

/-- The ranges of the Go `unicode.Han` table (both the 16-bit and 32-bit
parts), backing the `\p{Han}` class of the keep-filter regex. -/
def hanRanges : List (Nat × Nat) :=
  [(0x2e80, 0x2e99), (0x2e9b, 0x2ef3), (0x2f00, 0x2fd5), (0x3005, 0x3005),
   (0x3007, 0x3007), (0x3021, 0x3029), (0x3038, 0x303b), (0x3400, 0x4dbf),
   (0x4e00, 0x9fff), (0xf900, 0xfa6d), (0xfa70, 0xfad9),
   (0x16fe2, 0x16fe3), (0x16ff0, 0x16ff1), (0x20000, 0x2a6df),
   (0x2a700, 0x2b739), (0x2b740, 0x2b81d), (0x2b820, 0x2cea1),
   (0x2ceb0, 0x2ebe0), (0x2ebf0, 0x2ee5d), (0x2f800, 0x2fa1d),
   (0x30000, 0x3134a), (0x31350, 0x323af)]

/-- Membership in the Han script per `hanRanges`. -/
def isHanChar (c : Char) : Bool :=
  hanRanges.any (fun r => decide (r.1 ≤ c.toNat) && decide (c.toNat ≤ r.2))

/-- Characters the keep-filter regex `[^\p{Han}a-z0-9\s]+` retains. -/
def isKeptChar (c : Char) : Bool :=
  isHanChar c || ('a' ≤ c && c ≤ 'z') || ('0' ≤ c && c ≤ '9') || isGoWhitespace c

/-- Fuelled scanner behind `replaceAllChars`; fuel is the input length, enough
because every step consumes at least one character (patterns are nonempty). -/
def replaceAllAux (pat rep : List Char) : Nat → List Char → List Char
  | _, [] => []
  | 0, s => s
  | fuel + 1, c :: rest =>
    if pat ≠ [] ∧ pat.isPrefixOf (c :: rest) then
      rep ++ replaceAllAux pat rep fuel ((c :: rest).drop pat.length)
    else c :: replaceAllAux pat rep fuel rest

/-- Model of Go `strings.ReplaceAll` on rune lists: leftmost non-overlapping
occurrences of a nonempty pattern are replaced. (Go treats an empty pattern
specially; the stop phrases are all nonempty so that case never arises.) -/
def replaceAllChars (s pat rep : List Char) : List Char :=
  replaceAllAux pat rep s.length s

/-- Collapse every maximal whitespace run to a single space, mirroring the
`\s+` -> " " replacement; the flag records whether the previous character was
whitespace. -/
def collapseWsAux : Bool → List Char → List Char
  | _, [] => []
  | prevWs, c :: rest =>
    if isGoWhitespace c then
      if prevWs then collapseWsAux true rest else ' ' :: collapseWsAux true rest
    else c :: collapseWsAux false rest

/-- Strip leading and trailing spaces; after the whitespace collapse only the
plain space character can remain at the edges, so this matches `TrimSpace`. -/
def trimSpaces (s : List Char) : List Char :=
  ((s.dropWhile (fun c => c = ' ')).reverse.dropWhile (fun c => c = ' ')).reverse

/-- The stop-phrase list of `normalizeQuery`, in source order. -/
def stopPhrases : List String :=
  ["是谁", "是什么", "是啥", "请问", "怎么", "如何", "告诉我", "严格", "按照",
   "不要补充", "的区别", "区别", "吗", "呢", "？", "?"]

/-- `normalizeQuery` from the source: lowercase, strip stop phrases, keep only
Han/Latin-lowercase/digit/whitespace runes (each removed run becomes a space;
the later whitespace collapse makes per-character replacement equivalent to
the regex run replacement), collapse whitespace and trim; if the result is
empty keep the original query and an empty phrase, else return the normalized text
as both the query and the core phrase. The lowercasing uses the ASCII case
map; beyond ASCII, Go lowercasing feeds characters the keep-filter drops
either way. -/
def normalizeQuery (q : String) : String × String :=
  if q = "" then (q, "")
  else
    let lower := q.data.map Char.toLower
    let afterStops := stopPhrases.foldl
      (fun acc sp => replaceAllChars acc sp.data [' ']) lower
    let filtered := afterStops.map (fun c => if isKeptChar c then c else ' ')
    let kept := trimSpaces (collapseWsAux false filtered)
    if kept = [] then (q, "") else (String.mk kept, String.mk kept)

/-- One clause of the access filter's `should` list. -/
inductive FilterClause where
  | termUserId (userId : Nat)
  | termIsPublic (value : Bool)
  | termsOrgTag (tags : List String)
deriving DecidableEq, Repr

/-- The Elasticsearch request built by `HybridSearch`, restricted to the
fields the specification speaks about; `V` is the opaque vector type. -/
structure EsSearchQuery (V : Type) where
  knnField : String
  knnQueryVector : V
  knnK : Int
  knnNumCandidates : Int
  mustMatchText : String
  filterShould : List FilterClause
  filterMinimumShouldMatch : Nat
  phraseShould : Option String
  rescoreWindowSize : Int
  rescoreMatchText : String
  size : Int

/-- `buildPhraseShould` from the source: no clause for an empty phrase, else a
`match_phrase` on the phrase (its constant 3.0 boost is not modeled). -/
def buildPhraseShould (phrase : String) : Option String :=
  if phrase = "" then none else some phrase

/-- The request body assembled in `HybridSearch` (source lines 74-119). -/
def buildEsQuery (V : Type) (queryVector : V) (normalized phrase : String)
    (userId : Nat) (userEffectiveTags : List String) (topK : Int) :
    EsSearchQuery V :=
  { knnField := "vector"
    knnQueryVector := queryVector
    knnK := topK * 30
    knnNumCandidates := topK * 30
    mustMatchText := normalized
    filterShould := [FilterClause.termUserId userId, FilterClause.termIsPublic true,
      FilterClause.termsOrgTag userEffectiveTags]
    filterMinimumShouldMatch := 1
    phraseShould := buildPhraseShould phrase
    rescoreWindowSize := topK * 30
    rescoreMatchText := normalized
    size := topK }

/-- The request `HybridSearch` sends: the raw query is embedded (step 3 uses
the original question), the normalized text feeds the lexical clauses. -/
def hybridSearchQuery (V : Type) (embed : String → V) (query : String)
    (userId : Nat) (userEffectiveTags : List String) (topK : Int) :
    EsSearchQuery V :=
  buildEsQuery V (embed query) (normalizeQuery query).1 (normalizeQuery query).2
    userId userEffectiveTags topK

/-- The zero-hit retry request: the source copies the first request and
replaces only the `must` match and the rescore match with the phrase. -/
def buildRetryQuery (V : Type) (q : EsSearchQuery V) (phrase : String) :
    EsSearchQuery V :=
  { q with mustMatchText := phrase, rescoreMatchText := phrase }

/-- Access-relevant fields of an indexed document. -/
structure IndexedDocAccess where
  userId : Nat
  orgTag : String
  isPublic : Bool

/-- Elasticsearch `term`/`terms` semantics of one filter clause. -/
def filterClauseMatches (doc : IndexedDocAccess) : FilterClause → Bool
  | FilterClause.termUserId uid => doc.userId == uid
  | FilterClause.termIsPublic b => doc.isPublic == b
  | FilterClause.termsOrgTag tags => decide (doc.orgTag ∈ tags)

/-- Elasticsearch `bool` filter semantics: a document passes when at least
`minimum_should_match` of the `should` clauses match. -/
def boolFilterAccepts (V : Type) (q : EsSearchQuery V) (doc : IndexedDocAccess) :
    Prop :=
  q.filterMinimumShouldMatch ≤ q.filterShould.countP (filterClauseMatches doc)

/-! ## Ingestion pipeline

Source: `Process` in the pipeline package (conversation_repository.go part of
src), `repository/document_vector_repository.go` and `pkg/embedding/client.go`
(`es.IndexDocument`). The relational table and the Elasticsearch index are
explicit state; the embedder and the object store/extractor are abstracted to
their success paths (the claim concerns a run in which processing completes),
so the stored vector and model version are not modeled. -/

/-- A `document_vectors` row; `vector_id` is the auto-increment primary key. -/
structure DocumentVector where
  vectorId : Nat
  fileMD5 : String
  chunkId : Nat
  textContent : List Char
  userId : Nat
  orgTag : String
  isPublic : Bool
deriving DecidableEq, Repr

/-- An indexed Elasticsearch document (its dense vector and model version are
opaque and omitted); `vectorId` doubles as the index DocumentID. -/
structure EsDocumentModel where
  vectorId : String
  fileMD5 : String
  chunkId : Nat
  textContent : List Char
  userId : Nat
  orgTag : String
  isPublic : Bool
deriving DecidableEq, Repr

/-- A Kafka file-processing task (`pkg/tasks/tasks.go`). -/
structure FileProcessingTask where
  fileMD5 : String
  objectUrl : String
  fileName : String
  userId : Nat
  orgTag : String
  isPublic : Bool
deriving DecidableEq, Repr

/-- State the pipeline touches: the `document_vectors` table with its next
auto-increment id, and the Elasticsearch index as an association list keyed by
DocumentID. -/
structure PipelineState where
  docVectors : List DocumentVector
  nextVectorId : Nat
  esDocs : List (String × EsDocumentModel)

/-- `DeleteByFileMD5` of the vector repository. -/
def deleteByFileMD5 (rows : List DocumentVector) (fileMD5 : String) :
    List DocumentVector :=
  rows.filter (fun v => ¬ v.fileMD5 = fileMD5)

/-- `FindByFileMD5` of the vector repository (insertion order). -/
def findByFileMD5 (rows : List DocumentVector) (fileMD5 : String) :
    List DocumentVector :=
  rows.filter (fun v => v.fileMD5 = fileMD5)

/-- `es.IndexDocument`: an index request with an explicit DocumentID upserts —
an existing document with that id is replaced, otherwise the document is
appended. -/
def esUpsert (docs : List (String × EsDocumentModel)) (d : EsDocumentModel) :
    List (String × EsDocumentModel) :=
  if docs.any (fun p => p.1 == d.vectorId) then
    docs.map (fun p => if p.1 == d.vectorId then (p.1, d) else p)
  else docs ++ [(d.vectorId, d)]

/-- The index DocumentID `"<md5>_<chunk_id>"`. -/
def vectorIdString (fileMD5 : String) (chunkId : Nat) : String :=
  fileMD5 ++ "_" ++ toString chunkId

/-- The Elasticsearch document built for one stored chunk. -/
def toEsDocument (dv : DocumentVector) : EsDocumentModel :=
  { vectorId := vectorIdString dv.fileMD5 dv.chunkId
    fileMD5 := dv.fileMD5
    chunkId := dv.chunkId
    textContent := dv.textContent
    userId := dv.userId
    orgTag := dv.orgTag
    isPublic := dv.isPublic }

/-- The batch of rows inserted for one file's chunks (the `dbVectors` loop of
`Process`): auto-increment ids from `base`, chunk ids 0..N-1. -/
def chunkRows (base : Nat) (task : FileProcessingTask)
    (chunks : List (List Char)) : List DocumentVector :=
  chunks.enum.map (fun p =>
    { vectorId := base + p.1
      fileMD5 := task.fileMD5
      chunkId := p.1
      textContent := p.2
      userId := task.userId
      orgTag := task.orgTag
      isPublic := task.isPublic : DocumentVector })

/-- `Process` on its success path, given the extracted text: abort on empty
text or no chunks; delete the file's old rows; insert one row per chunk with
chunk ids 0..N-1 and fresh auto-increment ids (batches of 100 do not change
the final table contents); re-read the file's rows; index each as
`"<md5>_<chunk_id>"` with immediate refresh. -/
def processTask (st : PipelineState) (task : FileProcessingTask)
    (extractedText : List Char) : Option PipelineState :=
  if extractedText = [] then none
  else
    let chunks := splitText extractedText 1000 100
    if chunks = [] then none
    else
      let table := deleteByFileMD5 st.docVectors task.fileMD5 ++
        chunkRows st.nextVectorId task chunks
      let saved := findByFileMD5 table task.fileMD5
      some { docVectors := table
             nextVectorId := st.nextVectorId + chunks.length
             esDocs := saved.foldl (fun es dv => esUpsert es (toEsDocument dv)) st.esDocs }

/-! ## Chunk merge

Source: `internal/service/upload_service.go`, `MergeChunks`. The record
lookup and the Redis progress read supply `totalChunks` and `uploadedCount`;
the object-store merge is recorded as the ordered list of source objects; the
presigned URL is a parameter (the source discards its error); `kafkaOk` says
whether `ProduceFileTask` succeeds — its error is only logged. The background
cleanup goroutine touches no state modeled here. -/

/-- How the merged object was produced: a single-part server-side copy or a
multi-part compose of the listed sources in order. -/
inductive MergeOp where
  | copy (src : String)
  | compose (srcs : List String)
deriving DecidableEq, Repr

/-- State `MergeChunks` changes: the FileUpload status (0 uploading,
1 complete, 2 failed), the merged object, and the published tasks. -/
structure MergeState where
  status : Nat
  merged : Option MergeOp
  tasks : List FileProcessingTask
deriving DecidableEq, Repr

/-- Part object name `chunks/<md5>/<index>`. -/
def chunkObjectName (fileMD5 : String) (i : Nat) : String :=
  "chunks/" ++ fileMD5 ++ "/" ++ toString i

/-- Result of `MergeChunks`: the final state plus the returned value or
error. -/
structure MergeResult where
  state : MergeState
  outcome : Except String String

/-- `MergeChunks` on the happy path of its collaborators: refuse when fewer
parts are recorded than `totalChunks` (no state change); otherwise copy the
single part or compose parts 0..N-1 in order, set the status to 1, and append
the task when publishing succeeds — a publish failure is logged and the
call still returns the object URL. -/
def mergeChunks (st : MergeState) (fileMD5 fileName : String) (userId : Nat)
    (orgTag : String) (isPublic : Bool) (totalChunks uploadedCount : Nat)
    (objectUrl : String) (kafkaOk : Bool) : MergeResult :=
  if uploadedCount < totalChunks then
    { state := st, outcome := Except.error "分片未全部上传，无法合并" }
  else
    let merged :=
      if totalChunks = 1 then MergeOp.copy (chunkObjectName fileMD5 0)
      else MergeOp.compose ((List.range totalChunks).map (chunkObjectName fileMD5))
    let st1 : MergeState := { st with merged := some merged, status := 1 }
    let task : FileProcessingTask :=
      { fileMD5 := fileMD5, objectUrl := objectUrl, fileName := fileName,
        userId := userId, orgTag := orgTag, isPublic := isPublic }
    let st2 := if kafkaOk then { st1 with tasks := st1.tasks ++ [task] } else st1
    { state := st2, outcome := Except.ok objectUrl }

/-! ## Work-queue consumer retry policy

Source: `pkg/tasks/tasks.go`, `StartConsumer`, failure branch of one delivered
and successfully parsed task. `prevCounter` is the value of
`kafka:attempts:<md5>` before the delivery (`none` when absent); `redisOk`
says whether the INCR reached Redis. -/

/-- Externally visible effects of handling one delivery: whether the offset
was committed, the counter value afterwards, and whether its 24h TTL was
(re)set in this delivery. -/
structure ConsumerEffects where
  committed : Bool
  counter : Option Nat
  ttlSet : Bool
deriving DecidableEq, Repr

/-- One delivery: on success delete the counter and commit; on failure INCR
the counter and set its 24h TTL, committing only once the counter reached 3;
when Redis is unavailable change nothing and do not commit. -/
def handleDelivery (processOk redisOk : Bool) (prevCounter : Option Nat) :
    ConsumerEffects :=
  if processOk then
    { committed := true, counter := none, ttlSet := false }
  else
    if redisOk then
      let attempts := prevCounter.getD 0 + 1
      { committed := decide (3 ≤ attempts), counter := some attempts,
        ttlSet := true }
    else
      { committed := false, counter := prevCounter, ttlSet := false }

/-! ## Document deletion

Source: `internal/service/document_service.go`, `DeleteDocument`, and
`DeleteFileUploadRecord` in the upload repository. The record lookup is keyed
by `(md5, caller id)`; the MinIO removal error is ignored by the source; no
Elasticsearch deletion exists anywhere in the delete path. -/

/-- User fields the delete path reads. -/
structure User where
  id : Nat
  username : String
  role : String
  orgTags : String
  primaryOrg : String
deriving DecidableEq, Repr

/-- A `file_upload` row. -/
structure FileUpload where
  id : Nat
  fileMD5 : String
  fileName : String
  totalSize : Int
  status : Nat
  userId : Nat
  orgTag : String
  isPublic : Bool
deriving DecidableEq, Repr

/-- A `chunk_info` row. -/
structure ChunkInfo where
  fileMD5 : String
  chunkIndex : Nat
  storagePath : String
deriving DecidableEq, Repr

/-- Stores the delete path touches (the index is carried to observe that the
code never deletes from it). -/
structure DocState where
  fileUploads : List FileUpload
  chunkInfos : List ChunkInfo
  docVectors : List DocumentVector
  esDocs : List (String × EsDocumentModel)
  minioObjects : List String
deriving DecidableEq, Repr

/-- `GetFileUploadRecord`: first row with the given md5 AND the caller's
user id. -/
def getFileUploadRecord (rows : List FileUpload) (fileMD5 : String)
    (userId : Nat) : Option FileUpload :=
  rows.find? (fun r => r.fileMD5 == fileMD5 && r.userId == userId)

/-- `DeleteFileUploadRecord`: remove chunk_info and document_vectors rows by
md5 and the file_upload row by (md5, user id). -/
def deleteFileUploadRecord (st : DocState) (fileMD5 : String) (userId : Nat) :
    DocState :=
  { st with
    chunkInfos := st.chunkInfos.filter (fun c => ¬ c.fileMD5 = fileMD5)
    docVectors := st.docVectors.filter (fun v => ¬ v.fileMD5 = fileMD5)
    fileUploads := st.fileUploads.filter
      (fun r => ¬ (r.fileMD5 = fileMD5 ∧ r.userId = userId)) }

/-- `DeleteDocument`: look up the record by `(md5, caller id)` — failing with
a not-found error when absent — run the (unreachable, see the spec theorem)
permission check, remove the merged object ignoring storage errors, and
delete the relational rows. The Elasticsearch index is left untouched. -/
def deleteDocument (st : DocState) (fileMD5 : String) (user : User) :
    Except String DocState :=
  match getFileUploadRecord st.fileUploads fileMD5 user.id with
  | none => Except.error "文件不存在或不属于该用户"
  | some record =>
    if record.userId ≠ user.id ∧ user.role ≠ "ADMIN" then
      Except.error "没有权限删除此文件"
    else
      let st1 := { st with minioObjects :=
        st.minioObjects.filter (fun o => ¬ o = "merged/" ++ record.fileName) }
      Except.ok (deleteFileUploadRecord st1 fileMD5 record.userId)

/-- Boolean success test for `Except`. -/
def exceptIsOk {ε α : Type} : Except ε α → Bool
  | Except.ok _ => true
  | Except.error _ => false

/-- Example state for the deletion claims: one document owned by user 1 with
one indexed chunk. -/
def exDoc : EsDocumentModel :=
  { vectorId := "a_0", fileMD5 := "a", chunkId := 0, textContent := ['t'],
    userId := 1, orgTag := "g", isPublic := false }

/-- The FileUpload row of the deletion example, owned by user 1. -/
def exUpload : FileUpload :=
  { id := 1, fileMD5 := "a", fileName := "f.txt", totalSize := 3, status := 1,
    userId := 1, orgTag := "g", isPublic := false }

/-- Initial store contents for the deletion claims. -/
def exSt : DocState :=
  { fileUploads := [exUpload], chunkInfos := [], docVectors := [],
    esDocs := [("a_0", exDoc)], minioObjects := ["merged/f.txt"] }

/-- An administrator who does not own the document. -/
def exAdmin : User :=
  { id := 2, username := "admin", role := "ADMIN", orgTags := "", primaryOrg := "" }

/-- The owning user. -/
def exOwner : User :=
  { id := 1, username := "alice", role := "USER", orgTags := "", primaryOrg := "" }

/-- The store after the owner deletes the document: relational rows and the
merged object are gone, the index entry survives. -/
def exStAfter : DocState :=
  { fileUploads := [], chunkInfos := [], docVectors := [],
    esDocs := [("a_0", exDoc)], minioObjects := [] }

/-! ## Search handler argument handling

Source: `HybridSearch` handler in the handler package (src/unnamed/part_004):
an empty query is rejected with HTTP 400; `topK` is parsed with `Atoi` and any
parse error or value ≤ 0 silently becomes the default 10. -/

/-- Outcome of the handler's argument validation. -/
inductive SearchHandlerResult where
  | badRequest (message : String)
  | executed (topK : Int)
deriving DecidableEq, Repr

/-- `topK` resolution: `none` stands for an `Atoi` error; a parse error or a
value ≤ 0 falls back to 10. -/
def resolveTopK (parsed : Option Int) : Int :=
  match parsed with
  | none => 10
  | some k => if k ≤ 0 then 10 else k

/-- The handler's decision on `query` and the parsed `topK` parameter. -/
def searchHandlerDecision (query : String) (parsedTopK : Option Int) :
    SearchHandlerResult :=
  if query = "" then SearchHandlerResult.badRequest "无效的查询参数"
  else SearchHandlerResult.executed (resolveTopK parsedTopK)

/-! ## Chat context block

Source: `internal/service/chat_service.go`, `buildContextText`. Go `len` and
slicing on a `string` operate on BYTES, so the snippet cut happens at byte
1000; strings are modeled as their UTF-8 byte lists here. -/

/-- Standard UTF-8 encoding of one scalar value. -/
def utf8EncodeChar (c : Char) : List Nat :=
  let n := c.toNat
  if n < 0x80 then [n]
  else if n < 0x800 then [0xc0 + n / 64, 0x80 + n % 64]
  else if n < 0x10000 then
    [0xe0 + n / 4096, 0x80 + n / 64 % 64, 0x80 + n % 64]
  else
    [0xf0 + n / 262144, 0x80 + n / 4096 % 64, 0x80 + n / 64 % 64, 0x80 + n % 64]

/-- The UTF-8 bytes of a string — what a Go `string` is. -/
def utf8Bytes (s : String) : List Nat :=
  (s.data.map utf8EncodeChar).flatten

/-- One retrieval hit as the context builder sees it (byte strings). -/
structure ChatSearchHit where
  fileName : List Nat
  textContent : List Nat
deriving DecidableEq, Repr

/-- `maxSnippetLen` of the source. -/
def maxSnippetLen : Nat := 1000

/-- Snippet construction as the code performs it: the length test and the cut
act on bytes, and the ellipsis rune contributes its three UTF-8 bytes. -/
def buildSnippet (text : List Nat) : List Nat :=
  if maxSnippetLen < text.length then text.take maxSnippetLen ++ utf8Bytes "…"
  else text

/-- Snippet truncation as the specification words it: at 1000 Unicode code
points. Stated from the spec for comparison with `buildSnippet`; this is not
code of the repository. -/
def buildSnippetSpec (text : List Char) : List Char :=
  if 1000 < text.length then text.take 1000 ++ ("…").data else text

/-- Empty filenames render as "unknown". -/
def fileLabel (name : List Nat) : List Nat :=
  if name = [] then utf8Bytes "unknown" else name

/-- One line `"[i] (<filename>) <snippet>\n"` of the context block, `i`
1-based. -/
def contextLine (i : Nat) (hit : ChatSearchHit) : List Nat :=
  utf8Bytes ("[" ++ toString (i + 1) ++ "] (") ++ fileLabel hit.fileName ++
    utf8Bytes ") " ++ buildSnippet hit.textContent ++ utf8Bytes "\n"

/-- `buildContextText`: empty hit list yields the empty string, otherwise the
concatenation of the numbered lines. -/
def buildContextText (results : List ChatSearchHit) : List Nat :=
  if results = [] then []
  else (results.enum.map (fun p => contextLine p.1 p.2)).flatten

/-! ## Theorems -/

/-- Closed form of the 1000/100 window loop: starting at position `i`, the
windows start every 900 runes and the window count is
`(len - i - 101) / 900 + 1`. -/
lemma chunkLoop_closed (runes : List Char) (hstep : 0 < (900 : Nat)) :
    ∀ fuel i, runes.length ≤ i + fuel → i < runes.length →
      chunkLoop runes 1000 900 hstep i =
        (List.range ((runes.length - i - 101) / 900 + 1)).map
          (fun j => (runes.drop (i + 900 * j)).take 1000) := by
  intro fuel
  induction fuel with
  | zero => intro i hfuel hi; omega
  | succ fuel ih =>
    intro i hfuel hi
    rw [chunkLoop]
    rw [dif_pos hi]
    by_cases hend : runes.length ≤ i + 1000
    · rw [if_pos hend]
      have hcnt : (runes.length - i - 101) / 900 = 0 := by omega
      rw [hcnt]
      simp [List.range_succ]
    · rw [if_neg hend]
      have hlt : i + 900 < runes.length := by omega
      have hrec := ih (i + 900) (by omega) (by omega)
      rw [hrec]
      have hcnt : (runes.length - i - 101) / 900 + 1 =
          ((runes.length - (i + 900) - 101) / 900 + 1) + 1 := by omega
      rw [hcnt]
      apply List.ext_get
      · simp
      · intro n h1 h2
        rcases n with _ | m
        · simp
        · simp only [List.get_eq_getElem, List.getElem_cons_succ, List.getElem_map,
            List.getElem_range]
          have harith : i + 900 + 900 * m = i + 900 * (m + 1) := by ring
          rw [harith]

/-- Closed form of `splitText` at the 1000/100 configuration the pipeline
uses. -/
lemma splitText_closed_form (text : List Char) (hne : text ≠ []) :
    splitText text 1000 100 =
      (List.range ((text.length - 101) / 900 + 1)).map
        (fun j => (text.drop (900 * j)).take 1000) := by
  have hlen : 0 < text.length := List.length_pos.mpr hne
  unfold splitText
  rw [dif_neg (by omega : ¬((1000 : Nat) ≤ 100))]
  rw [if_neg (by omega)]
  have h := chunkLoop_closed text (by omega) text.length 0 (by omega) hlen
  rw [h]
  simp

/-- For nonempty text the pipeline splitter yields at least one chunk. -/
lemma splitText_ne_nil (text : List Char) (hne : text ≠ []) :
    splitText text 1000 100 ≠ [] := by
  rw [splitText_closed_form text hne]
  simp

/-- C3: for nonempty text the splitter produces windows of 1000 runes starting
every 900 runes, `(len - 101) / 900 + 1` of them, the last truncated by `take`
to the remaining runes; no window is empty; empty text yields no chunks; and
when the window is at most the overlap it falls back to the non-overlapping
`simpleSplit`. -/
theorem splitText_window_spec :
    (∀ text : List Char, text ≠ [] →
        splitText text 1000 100 =
          (List.range ((text.length - 101) / 900 + 1)).map
            (fun j => (text.drop (900 * j)).take 1000)) ∧
    (∀ text : List Char, ∀ c ∈ splitText text 1000 100, c ≠ []) ∧
    splitText ([] : List Char) 1000 100 = [] ∧
    (∀ (text : List Char) (chunkSize chunkOverlap : Nat), chunkSize ≤ chunkOverlap →
        splitText text chunkSize chunkOverlap = simpleSplit text chunkSize) := by
  refine ⟨splitText_closed_form, ?_, by simp [splitText, simpleSplit], ?_⟩
  · intro text c hc
    by_cases hne : text = []
    · subst hne; simp [splitText, simpleSplit] at hc
    · rw [splitText_closed_form text hne] at hc
      obtain ⟨j, hj, rfl⟩ := List.mem_map.mp hc
      rw [List.mem_range] at hj
      have hlen : 0 < text.length := List.length_pos.mpr hne
      have hstart : 900 * j < text.length := by omega
      intro habs
      have : ((text.drop (900 * j)).take 1000).length = 0 := by rw [habs]; simp
      simp only [List.length_take, List.length_drop] at this
      omega
  · intro text chunkSize chunkOverlap hle
    unfold splitText
    rw [dif_pos hle]

/-- Witness for C3: the main conjunct applied at the concrete two-rune text. -/
theorem splitText_window_spec_witness :
    splitText (['a', 'b'] : List Char) 1000 100 =
      (List.range ((([ 'a', 'b'] : List Char).length - 101) / 900 + 1)).map
        (fun j => ((['a', 'b'] : List Char).drop (900 * j)).take 1000) :=
  splitText_window_spec.1 ['a', 'b'] (by decide)

lemma bfsParents_nil (allTags : List OrganizationTag) (visited : List String) :
    bfsParents allTags visited [] = visited := by
  rw [bfsParents]

lemma bfsParents_cons_old (allTags : List OrganizationTag)
    (visited : List String) (current : String) (rest : List String) (p : String)
    (hl : parentMapLookup allTags current = some (some p)) (hp : p ∈ visited) :
    bfsParents allTags visited (current :: rest) = bfsParents allTags visited rest := by
  rw [bfsParents]
  split
  · rename_i q heq
    rw [hl] at heq
    have hqp : q = p := by injection heq with h1; injection h1 with h2; exact h2.symm
    subst hqp
    rw [dif_pos hp]
  · rfl
  · rfl

lemma bfsParents_cons_push (allTags : List OrganizationTag)
    (visited : List String) (current : String) (rest : List String) (p : String)
    (hl : parentMapLookup allTags current = some (some p)) (hp : p ∉ visited) :
    bfsParents allTags visited (current :: rest) =
      bfsParents allTags (visited ++ [p]) (rest ++ [p]) := by
  rw [bfsParents]
  split
  · rename_i q heq
    rw [hl] at heq
    have hqp : q = p := by injection heq with h1; injection h1 with h2; exact h2.symm
    subst hqp
    rw [dif_neg hp]
  · rename_i heq
    rw [hl] at heq
    simp at heq
  · rename_i heq
    rw [hl] at heq
    simp at heq

lemma bfsParents_cons_noparent (allTags : List OrganizationTag)
    (visited : List String) (current : String) (rest : List String)
    (hl : ∀ p : String, parentMapLookup allTags current ≠ some (some p)) :
    bfsParents allTags visited (current :: rest) = bfsParents allTags visited rest := by
  rw [bfsParents]
  split
  · next q heq => exact absurd heq (hl q)
  · rfl
  · rfl

/-- Invariant proof for the breadth-first walk: starting from a duplicate-free
visited list that contains the whole queue and is parent-closed off the queue,
the walk returns a duplicate-free superset of `visited` that is parent-closed
and consists only of tags reachable from `visited` along parent edges. -/
lemma bfsParents_spec (allTags : List OrganizationTag) :
    ∀ visited queue : List String, visited.Nodup → (∀ x ∈ queue, x ∈ visited) →
      (∀ t ∈ visited, t ∉ queue → ∀ p, parentStep allTags t p → p ∈ visited) →
      (bfsParents allTags visited queue).Nodup ∧
      (∀ x ∈ visited, x ∈ bfsParents allTags visited queue) ∧
      (∀ t ∈ bfsParents allTags visited queue, ∀ p, parentStep allTags t p →
          p ∈ bfsParents allTags visited queue) ∧
      (∀ t ∈ bfsParents allTags visited queue, ∃ v ∈ visited,
          Relation.ReflTransGen (parentStep allTags) v t) := by
  intro visited queue
  induction visited, queue using bfsParents.induct allTags with
  | case1 visited =>
    intro hnd _hq hcl
    rw [bfsParents_nil]
    refine ⟨hnd, fun x hx => hx, ?_, ?_⟩
    · intro t ht p hstep
      exact hcl t ht (by simp) p hstep
    · intro t ht
      exact ⟨t, ht, Relation.ReflTransGen.refl⟩
  | case2 visited current rest p hl hp ih =>
    intro hnd hq hcl
    rw [bfsParents_cons_old allTags visited current rest p hl hp]
    apply ih hnd
    · intro x hx
      exact hq x (List.mem_cons_of_mem _ hx)
    · intro t ht htq q hstep
      by_cases hc : t = current
      · subst hc
        have : q = p := by
          have := hstep
          unfold parentStep at this
          rw [hl] at this
          injection this with h1; injection h1 with h2; exact h2.symm
        rw [this]; exact hp
      · exact hcl t ht (by simp [hc, htq]) q hstep
  | case3 visited current rest p hl hp ih =>
    intro hnd hq hcl
    rw [bfsParents_cons_push allTags visited current rest p hl hp]
    have hcur : current ∈ visited := hq current (List.mem_cons_self _ _)
    have hnd2 : (visited ++ [p]).Nodup := by
      rw [List.nodup_append]
      exact ⟨hnd, List.nodup_singleton p, by simpa using fun hmem => (hp hmem).elim⟩
    have hq2 : ∀ x ∈ rest ++ [p], x ∈ visited ++ [p] := by
      intro x hx
      rw [List.mem_append] at hx ⊢
      rcases hx with hx | hx
      · exact Or.inl (hq x (List.mem_cons_of_mem _ hx))
      · exact Or.inr hx
    have hcl2 : ∀ t ∈ visited ++ [p], t ∉ rest ++ [p] →
        ∀ q, parentStep allTags t q → q ∈ visited ++ [p] := by
      intro t ht htq q hstep
      rw [List.mem_append] at ht
      rcases ht with ht | ht
      · by_cases hc : t = current
        · subst hc
          have : q = p := by
            have hs := hstep
            unfold parentStep at hs
            rw [hl] at hs
            injection hs with h1; injection h1 with h2; exact h2.symm
          rw [this, List.mem_append]
          exact Or.inr (List.mem_singleton_self p)
        · have htrest : t ∉ rest := fun hmem =>
            htq (List.mem_append.mpr (Or.inl hmem))
          have : q ∈ visited := hcl t ht (by simp [hc, htrest]) q hstep
          exact List.mem_append.mpr (Or.inl this)
      · exact absurd (List.mem_append.mpr (Or.inr ht)) htq
    obtain ⟨r1, r2, r3, r4⟩ := ih hnd2 hq2 hcl2
    refine ⟨r1, ?_, r3, ?_⟩
    · intro x hx
      exact r2 x (List.mem_append.mpr (Or.inl hx))
    · intro t ht
      obtain ⟨v, hv, hreach⟩ := r4 t ht
      rw [List.mem_append] at hv
      rcases hv with hv | hv
      · exact ⟨v, hv, hreach⟩
      · rw [List.mem_singleton] at hv
        subst hv
        refine ⟨current, hcur, Relation.ReflTransGen.head ?_ hreach⟩
        exact hl
  | case4 visited current rest hl ih =>
    intro hnd hq hcl
    rw [bfsParents_cons_noparent allTags visited current rest
      (by intro q; rw [hl]; intro h; cases h)]
    apply ih hnd
    · intro x hx
      exact hq x (List.mem_cons_of_mem _ hx)
    · intro t ht htq q hstep
      by_cases hc : t = current
      · subst hc
        unfold parentStep at hstep
        rw [hl] at hstep
        cases hstep
      · exact hcl t ht (by simp [hc, htq]) q hstep
  | case5 visited current rest hl ih =>
    intro hnd hq hcl
    rw [bfsParents_cons_noparent allTags visited current rest
      (by intro q; rw [hl]; intro h; cases h)]
    apply ih hnd
    · intro x hx
      exact hq x (List.mem_cons_of_mem _ hx)
    · intro t ht htq q hstep
      by_cases hc : t = current
      · subst hc
        unfold parentStep at hstep
        rw [hl] at hstep
        cases hstep
      · exact hcl t ht (by simp [hc, htq]) q hstep

lemma dedupKeepFirst_foldl_mem (l : List String) :
    ∀ acc x, (x ∈ l.foldl (fun acc t => if t ∈ acc then acc else acc ++ [t]) acc ↔
      x ∈ acc ∨ x ∈ l) := by
  induction l with
  | nil => intro acc x; simp
  | cons a l ih =>
    intro acc x
    simp only [List.foldl_cons]
    by_cases ha : a ∈ acc
    · rw [if_pos ha, ih]
      simp only [List.mem_cons]
      constructor
      · rintro (h | h)
        · exact Or.inl h
        · exact Or.inr (Or.inr h)
      · rintro (h | rfl | h)
        · exact Or.inl h
        · exact Or.inl ha
        · exact Or.inr h
    · rw [if_neg ha, ih]
      simp only [List.mem_append, List.mem_singleton, List.mem_cons]
      tauto

lemma dedupKeepFirst_foldl_nodup (l : List String) :
    ∀ acc : List String, acc.Nodup →
      (l.foldl (fun acc t => if t ∈ acc then acc else acc ++ [t]) acc).Nodup := by
  induction l with
  | nil => intro acc h; simpa
  | cons a l ih =>
    intro acc h
    simp only [List.foldl_cons]
    by_cases ha : a ∈ acc
    · rw [if_pos ha]; exact ih acc h
    · rw [if_neg ha]
      apply ih
      rw [List.nodup_append]
      exact ⟨h, List.nodup_singleton a, by simpa using fun hmem => (ha hmem).elim⟩

lemma dedupKeepFirst_mem (l : List String) (x : String) :
    x ∈ dedupKeepFirst l ↔ x ∈ l := by
  unfold dedupKeepFirst
  rw [dedupKeepFirst_foldl_mem]
  simp

lemma dedupKeepFirst_nodup (l : List String) : (dedupKeepFirst l).Nodup :=
  dedupKeepFirst_foldl_nodup l [] List.nodup_nil

/-- C2: the effective tag set equals the reflexive-transitive closure of the
declared tags under the parent relation: it has no duplicates, contains every
declared tag, contains the parent of every contained tag that has one, and
contains only tags reachable from a declared tag along parent edges. -/
theorem getUserEffectiveOrgTags_closure (orgTags : String)
    (allTags : List OrganizationTag) :
    (getUserEffectiveOrgTags orgTags allTags).Nodup ∧
    (∀ d ∈ declaredTags orgTags, d ∈ getUserEffectiveOrgTags orgTags allTags) ∧
    (∀ t ∈ getUserEffectiveOrgTags orgTags allTags, ∀ p, parentStep allTags t p →
        p ∈ getUserEffectiveOrgTags orgTags allTags) ∧
    (∀ t ∈ getUserEffectiveOrgTags orgTags allTags, ∃ d ∈ declaredTags orgTags,
        Relation.ReflTransGen (parentStep allTags) d t) := by
  by_cases hempty : orgTags = ""
  · simp [getUserEffectiveOrgTags, declaredTags, hempty]
  · unfold getUserEffectiveOrgTags declaredTags
    rw [if_neg hempty, if_neg hempty]
    obtain ⟨r1, r2, r3, r4⟩ := bfsParents_spec allTags
      (dedupKeepFirst (goSplitComma orgTags)) (dedupKeepFirst (goSplitComma orgTags))
      (dedupKeepFirst_nodup _) (fun x hx => hx) (fun t ht htq => absurd ht htq)
    refine ⟨r1, ?_, r3, ?_⟩
    · intro d hd
      exact r2 d ((dedupKeepFirst_mem _ d).mpr hd)
    · intro t ht
      obtain ⟨v, hv, hreach⟩ := r4 t ht
      exact ⟨v, (dedupKeepFirst_mem _ v).mp hv, hreach⟩

/-- Witness for C2: a declared tag of the concrete user is in the effective
set computed over a concrete two-row tag table. -/
theorem getUserEffectiveOrgTags_closure_witness :
    "a" ∈ getUserEffectiveOrgTags "a,b"
      [⟨"a", some "root"⟩, ⟨"root", none⟩] :=
  (getUserEffectiveOrgTags_closure "a,b" [⟨"a", some "root"⟩, ⟨"root", none⟩]).2.1
    "a" (by decide)

/-- C1: every hybrid-search request carries a required filter that is the OR
of exactly the three clauses `user_id = user.id`, `is_public = true` and
`org_tag ∈ effective_tags`, with `minimum_should_match = 1`; semantically a
document passes the filter iff one of the three conditions holds; and the
zero-hit retry keeps the same filter. -/
theorem hybridSearch_filter_spec (V : Type) (embed : String → V) (query : String)
    (userId : Nat) (tags : List String) (topK : Int) (phrase : String) :
    (hybridSearchQuery V embed query userId tags topK).filterShould =
      [FilterClause.termUserId userId, FilterClause.termIsPublic true,
       FilterClause.termsOrgTag tags] ∧
    (hybridSearchQuery V embed query userId tags topK).filterMinimumShouldMatch = 1 ∧
    (∀ doc : IndexedDocAccess,
      boolFilterAccepts V (hybridSearchQuery V embed query userId tags topK) doc ↔
        (doc.userId = userId ∨ doc.isPublic = true ∨ doc.orgTag ∈ tags)) ∧
    (buildRetryQuery V (hybridSearchQuery V embed query userId tags topK)
        phrase).filterShould =
      (hybridSearchQuery V embed query userId tags topK).filterShould ∧
    (buildRetryQuery V (hybridSearchQuery V embed query userId tags topK)
        phrase).filterMinimumShouldMatch = 1 := by
  refine ⟨rfl, rfl, ?_, rfl, rfl⟩
  intro doc
  rcases doc with ⟨duid, dtag, dpub⟩
  unfold boolFilterAccepts hybridSearchQuery buildEsQuery
  simp only [List.countP_cons, List.countP_nil, filterClauseMatches]
  by_cases h1 : duid = userId <;> by_cases h2 : dpub = true <;>
    by_cases h3 : dtag ∈ tags <;> simp [h1, h2, h3]

/-- Witness for C1: a concrete document sharing only the organisation tag
passes the filter of a concrete request. -/
theorem hybridSearch_filter_spec_witness :
    boolFilterAccepts String (hybridSearchQuery String id "q" 7 ["t1"] 10)
      ⟨9, "t1", false⟩ :=
  ((hybridSearch_filter_spec String id "q" 7 ["t1"] 10 "p").2.2.1
    ⟨9, "t1", false⟩).mpr (Or.inr (Or.inr (by decide)))

/-- C10: the dense k-NN clause embeds the original, un-normalized query; the
normalized text appears in the lexical `must` match and the rescore match, and
the phrase boost carries the extracted phrase; the retry request leaves the
k-NN vector untouched. -/
theorem hybridSearch_knn_uses_original_query (V : Type) (embed : String → V)
    (query : String) (userId : Nat) (tags : List String) (topK : Int)
    (phrase : String) :
    (hybridSearchQuery V embed query userId tags topK).knnQueryVector =
      embed query ∧
    (hybridSearchQuery V embed query userId tags topK).mustMatchText =
      (normalizeQuery query).1 ∧
    (hybridSearchQuery V embed query userId tags topK).rescoreMatchText =
      (normalizeQuery query).1 ∧
    (hybridSearchQuery V embed query userId tags topK).phraseShould =
      buildPhraseShould (normalizeQuery query).2 ∧
    (buildRetryQuery V (hybridSearchQuery V embed query userId tags topK)
        phrase).knnQueryVector = embed query :=
  ⟨rfl, rfl, rfl, rfl, rfl⟩

/-- Witness for C10 at a query that normalization changes: the k-NN clause
keeps the raw query while the lexical match gets the normalized form. -/
theorem hybridSearch_knn_uses_original_query_witness :
    (hybridSearchQuery String id "what?" 7 ["t"] 10).knnQueryVector = "what?" ∧
    (hybridSearchQuery String id "what?" 7 ["t"] 10).mustMatchText = "what" ∧
    ("what" : String) ≠ "what?" := by
  refine ⟨(hybridSearch_knn_uses_original_query String id "what?" 7 ["t"] 10
    "x").1, ?_, by decide⟩
  rw [(hybridSearch_knn_uses_original_query String id "what?" 7 ["t"] 10 "x").2.1]
  decide

lemma findByFileMD5_deleteByFileMD5 (rows : List DocumentVector) (md5 : String) :
    findByFileMD5 (deleteByFileMD5 rows md5) md5 = [] := by
  unfold findByFileMD5 deleteByFileMD5
  induction rows with
  | nil => rfl
  | cons r rows ih =>
    by_cases h : r.fileMD5 = md5 <;> simp [h, ih]

lemma findByFileMD5_append (rows1 rows2 : List DocumentVector) (md5 : String) :
    findByFileMD5 (rows1 ++ rows2) md5 =
      findByFileMD5 rows1 md5 ++ findByFileMD5 rows2 md5 := by
  unfold findByFileMD5
  exact List.filter_append _ _

lemma esUpsert_keys_nodup (docs : List (String × EsDocumentModel))
    (d : EsDocumentModel) (h : (docs.map Prod.fst).Nodup) :
    ((esUpsert docs d).map Prod.fst).Nodup := by
  unfold esUpsert
  by_cases hmem : docs.any (fun p => p.1 == d.vectorId)
  · rw [if_pos hmem]
    have : (docs.map (fun p => if p.1 == d.vectorId then (p.1, d) else p)).map Prod.fst =
        docs.map Prod.fst := by
      rw [List.map_map]
      apply List.map_congr_left
      intro p _
      by_cases hp : p.1 = d.vectorId <;> simp [hp]
    rw [this]
    exact h
  · rw [if_neg hmem]
    rw [List.map_append]
    rw [List.nodup_append]
    refine ⟨h, by simp, ?_⟩
    intro x hx
    simp only [List.map_cons, List.map_nil, List.mem_singleton]
    intro hxd
    subst hxd
    rw [List.any_eq_true] at hmem
    apply hmem
    rw [List.mem_map] at hx
    obtain ⟨p, hp, hpx⟩ := hx
    exact ⟨p, hp, by rw [beq_iff_eq]; exact hpx⟩

lemma esUpsert_mem_keys (docs : List (String × EsDocumentModel))
    (d : EsDocumentModel) :
    d.vectorId ∈ (esUpsert docs d).map Prod.fst := by
  unfold esUpsert
  by_cases hmem : docs.any (fun p => p.1 == d.vectorId)
  · rw [if_pos hmem]
    rw [List.any_eq_true] at hmem
    obtain ⟨p, hp, hpd⟩ := hmem
    rw [beq_iff_eq] at hpd
    rw [List.mem_map]
    refine ⟨(p.1, d), ?_, hpd⟩
    rw [List.mem_map]
    exact ⟨p, hp, by rw [if_pos (by rw [beq_iff_eq]; exact hpd)]⟩
  · rw [if_neg hmem]
    rw [List.map_append]
    simp

lemma esUpsert_keys_superset (docs : List (String × EsDocumentModel))
    (d : EsDocumentModel) (k : String) (h : k ∈ docs.map Prod.fst) :
    k ∈ (esUpsert docs d).map Prod.fst := by
  unfold esUpsert
  by_cases hmem : docs.any (fun p => p.1 == d.vectorId)
  · rw [if_pos hmem]
    rw [List.mem_map] at h
    obtain ⟨p, hp, hpk⟩ := h
    rw [List.mem_map]
    by_cases hpd : p.1 == d.vectorId
    · exact ⟨(p.1, d), List.mem_map.mpr ⟨p, hp, by rw [if_pos hpd]⟩, hpk⟩
    · exact ⟨p, List.mem_map.mpr ⟨p, hp, by rw [if_neg hpd]⟩, hpk⟩
  · rw [if_neg hmem]
    rw [List.map_append]
    exact List.mem_append.mpr (Or.inl h)

lemma foldl_esUpsert_keys_nodup (rows : List DocumentVector) :
    ∀ docs : List (String × EsDocumentModel), (docs.map Prod.fst).Nodup →
      ((rows.foldl (fun es dv => esUpsert es (toEsDocument dv)) docs).map
        Prod.fst).Nodup := by
  induction rows with
  | nil => intro docs h; exact h
  | cons r rows ih =>
    intro docs h
    simp only [List.foldl_cons]
    exact ih _ (esUpsert_keys_nodup docs (toEsDocument r) h)

lemma foldl_esUpsert_keys_superset (rows : List DocumentVector) :
    ∀ (docs : List (String × EsDocumentModel)) (k : String),
      k ∈ docs.map Prod.fst →
      k ∈ (rows.foldl (fun es dv => esUpsert es (toEsDocument dv)) docs).map
        Prod.fst := by
  induction rows with
  | nil => intro docs k h; exact h
  | cons r rows ih =>
    intro docs k h
    simp only [List.foldl_cons]
    exact ih _ k (esUpsert_keys_superset docs (toEsDocument r) k h)

lemma foldl_esUpsert_mem_keys (rows : List DocumentVector) :
    ∀ docs : List (String × EsDocumentModel), ∀ dv ∈ rows,
      (toEsDocument dv).vectorId ∈
        ((rows.foldl (fun es dv => esUpsert es (toEsDocument dv)) docs).map
          Prod.fst) := by
  induction rows with
  | nil => intro docs dv h; cases h
  | cons r rows ih =>
    intro docs dv hdv
    simp only [List.foldl_cons]
    rcases List.mem_cons.mp hdv with rfl | hdv
    · exact foldl_esUpsert_keys_superset rows _ _
        (esUpsert_mem_keys docs (toEsDocument dv))
    · exact ih _ dv hdv

lemma chunkRows_fileMD5 (base : Nat) (task : FileProcessingTask)
    (chunks : List (List Char)) :
    ∀ dv ∈ chunkRows base task chunks, dv.fileMD5 = task.fileMD5 := by
  intro dv hdv
  unfold chunkRows at hdv
  obtain ⟨p, _, rfl⟩ := List.mem_map.mp hdv
  rfl

lemma chunkRows_map_chunkId (base : Nat) (task : FileProcessingTask)
    (chunks : List (List Char)) :
    (chunkRows base task chunks).map (fun dv => dv.chunkId) =
      List.range chunks.length := by
  unfold chunkRows
  rw [List.map_map]
  have : ((fun dv : DocumentVector => dv.chunkId) ∘ (fun p : Nat × List Char =>
      ({ vectorId := base + p.1, fileMD5 := task.fileMD5, chunkId := p.1,
         textContent := p.2, userId := task.userId, orgTag := task.orgTag,
         isPublic := task.isPublic } : DocumentVector))) =
      fun p : Nat × List Char => p.1 := rfl
  rw [this]
  exact List.enum_map_fst chunks

lemma chunkRows_length (base : Nat) (task : FileProcessingTask)
    (chunks : List (List Char)) :
    (chunkRows base task chunks).length = chunks.length := by
  unfold chunkRows
  rw [List.length_map, List.enum_length]

lemma findByFileMD5_chunkRows (base : Nat) (task : FileProcessingTask)
    (chunks : List (List Char)) :
    findByFileMD5 (chunkRows base task chunks) task.fileMD5 =
      chunkRows base task chunks := by
  unfold findByFileMD5
  rw [List.filter_eq_self]
  intro dv hdv
  simp [chunkRows_fileMD5 base task chunks dv hdv]

lemma deleteByFileMD5_chunkRows (base : Nat) (task : FileProcessingTask)
    (chunks : List (List Char)) :
    deleteByFileMD5 (chunkRows base task chunks) task.fileMD5 = [] := by
  unfold deleteByFileMD5
  rw [List.filter_eq_nil_iff]
  intro dv hdv
  simp [chunkRows_fileMD5 base task chunks dv hdv]

lemma deleteByFileMD5_idem (rows : List DocumentVector) (md5 : String) :
    deleteByFileMD5 (deleteByFileMD5 rows md5) md5 = deleteByFileMD5 rows md5 := by
  unfold deleteByFileMD5
  rw [List.filter_eq_self]
  intro dv hdv
  exact (List.mem_filter.mp hdv).2

lemma deleteByFileMD5_append (rows1 rows2 : List DocumentVector) (md5 : String) :
    deleteByFileMD5 (rows1 ++ rows2) md5 =
      deleteByFileMD5 rows1 md5 ++ deleteByFileMD5 rows2 md5 := by
  unfold deleteByFileMD5
  exact List.filter_append _ _

lemma chunkRows_mem_of_lt (base : Nat) (task : FileProcessingTask)
    (chunks : List (List Char)) (i : Nat) (hi : i < chunks.length) :
    ∃ dv ∈ chunkRows base task chunks,
      dv.chunkId = i ∧ dv.fileMD5 = task.fileMD5 := by
  have hlen : i < (chunkRows base task chunks).length := by
    rw [chunkRows_length]; exact hi
  refine ⟨(chunkRows base task chunks)[i], List.getElem_mem hlen, ?_, ?_⟩
  · unfold chunkRows
    simp only [List.getElem_map, List.getElem_enum]
  · unfold chunkRows
    simp only [List.getElem_map, List.getElem_enum]

/-- C4: processing the same extracted text twice for one `file_md5` is
idempotent: the delete step leaves no prior row for the file, each run
re-assigns chunk ids 0..N-1, the row count for the file is unchanged by the
second run, and in the resulting index the keys are duplicate-free with
exactly one document per id `"<md5>_<chunk_id>"`. -/
theorem processTask_idempotent (st : PipelineState) (task : FileProcessingTask)
    (text : List Char) (hkeys : (st.esDocs.map Prod.fst).Nodup)
    (htext : text ≠ []) :
    ∃ st1 st2,
      processTask st task text = some st1 ∧
      processTask st1 task text = some st2 ∧
      findByFileMD5 (deleteByFileMD5 st.docVectors task.fileMD5) task.fileMD5
        = [] ∧
      (findByFileMD5 st1.docVectors task.fileMD5).map (fun dv => dv.chunkId) =
        List.range (splitText text 1000 100).length ∧
      (findByFileMD5 st2.docVectors task.fileMD5).map (fun dv => dv.chunkId) =
        List.range (splitText text 1000 100).length ∧
      (findByFileMD5 st2.docVectors task.fileMD5).length =
        (findByFileMD5 st1.docVectors task.fileMD5).length ∧
      (st2.esDocs.map Prod.fst).Nodup ∧
      (∀ i < (splitText text 1000 100).length,
        (st2.esDocs.map Prod.fst).count (vectorIdString task.fileMD5 i) = 1) := by
  have hchunks : splitText text 1000 100 ≠ [] := splitText_ne_nil text htext
  set chunks := splitText text 1000 100 with hchunksdef
  set md5 := task.fileMD5 with hmd5
  -- the two runs, written out
  set rows1 := chunkRows st.nextVectorId task chunks with hrows1
  set table1 := deleteByFileMD5 st.docVectors md5 ++ rows1 with htable1
  set es1 := (findByFileMD5 table1 md5).foldl
    (fun es dv => esUpsert es (toEsDocument dv)) st.esDocs with hes1
  set st1 : PipelineState :=
    { docVectors := table1, nextVectorId := st.nextVectorId + chunks.length,
      esDocs := es1 } with hst1
  set rows2 := chunkRows st1.nextVectorId task chunks with hrows2
  set table2 := deleteByFileMD5 table1 md5 ++ rows2 with htable2
  set es2 := (findByFileMD5 table2 md5).foldl
    (fun es dv => esUpsert es (toEsDocument dv)) es1 with hes2
  set st2 : PipelineState :=
    { docVectors := table2, nextVectorId := st1.nextVectorId + chunks.length,
      esDocs := es2 } with hst2
  have hrun1 : processTask st task text = some st1 := by
    unfold processTask
    rw [if_neg htext, if_neg hchunks]
  have hrun2 : processTask st1 task text = some st2 := by
    unfold processTask
    rw [if_neg htext, if_neg hchunks]
  have hfind1 : findByFileMD5 table1 md5 = rows1 := by
    rw [htable1, findByFileMD5_append, findByFileMD5_deleteByFileMD5,
      hrows1, hmd5, findByFileMD5_chunkRows, List.nil_append]
  have hclean2 : deleteByFileMD5 table1 md5 = deleteByFileMD5 st.docVectors md5 := by
    rw [htable1, deleteByFileMD5_append, deleteByFileMD5_idem, hrows1, hmd5,
      deleteByFileMD5_chunkRows, List.append_nil]
  have hfind2 : findByFileMD5 table2 md5 = rows2 := by
    rw [htable2, findByFileMD5_append, hclean2, findByFileMD5_deleteByFileMD5,
      hrows2, hmd5, findByFileMD5_chunkRows, List.nil_append]
  refine ⟨st1, st2, hrun1, hrun2, ?_, ?_, ?_, ?_, ?_, ?_⟩
  · exact findByFileMD5_deleteByFileMD5 st.docVectors md5
  · show (findByFileMD5 table1 md5).map (fun dv => dv.chunkId) = _
    rw [hfind1, hrows1]
    exact chunkRows_map_chunkId _ _ _
  · show (findByFileMD5 table2 md5).map (fun dv => dv.chunkId) = _
    rw [hfind2, hrows2]
    exact chunkRows_map_chunkId _ _ _
  · show (findByFileMD5 table2 md5).length = (findByFileMD5 table1 md5).length
    rw [hfind1, hfind2, hrows1, hrows2]
    rw [chunkRows_length, chunkRows_length]
  · show (es2.map Prod.fst).Nodup
    rw [hes2]
    apply foldl_esUpsert_keys_nodup
    rw [hes1]
    exact foldl_esUpsert_keys_nodup _ _ hkeys
  · intro i hi
    have hnodup2 : (es2.map Prod.fst).Nodup := by
      rw [hes2]
      apply foldl_esUpsert_keys_nodup
      rw [hes1]
      exact foldl_esUpsert_keys_nodup _ _ hkeys
    obtain ⟨dv, hdvmem, hdvid, hdvmd5⟩ :=
      chunkRows_mem_of_lt st1.nextVectorId task chunks i hi
    have hkey : (toEsDocument dv).vectorId = vectorIdString md5 i := by
      unfold toEsDocument
      rw [hdvid, hdvmd5, hmd5]
    have hmem : vectorIdString md5 i ∈ es2.map Prod.fst := by
      rw [← hkey, hes2, hfind2]
      exact foldl_esUpsert_mem_keys rows2 es1 dv (by rw [hrows2]; exact hdvmem)
    exact List.count_eq_one_of_mem hnodup2 hmem

/-- Witness for C4 at a one-chunk text and an empty initial state. -/
theorem processTask_idempotent_witness :
    ∃ st1 st2,
      processTask ⟨[], 0, []⟩ ⟨"m", "u", "f.txt", 1, "t", false⟩ ['x'] = some st1 ∧
      processTask st1 ⟨"m", "u", "f.txt", 1, "t", false⟩ ['x'] = some st2 ∧
      findByFileMD5 (deleteByFileMD5 ([] : List DocumentVector) "m") "m" = [] ∧
      (findByFileMD5 st1.docVectors "m").map (fun dv => dv.chunkId) =
        List.range (splitText ['x'] 1000 100).length ∧
      (findByFileMD5 st2.docVectors "m").map (fun dv => dv.chunkId) =
        List.range (splitText ['x'] 1000 100).length ∧
      (findByFileMD5 st2.docVectors "m").length =
        (findByFileMD5 st1.docVectors "m").length ∧
      (st2.esDocs.map Prod.fst).Nodup ∧
      (∀ i < (splitText ['x'] 1000 100).length,
        (st2.esDocs.map Prod.fst).count (vectorIdString "m" i) = 1) :=
  processTask_idempotent ⟨[], 0, []⟩ ⟨"m", "u", "f.txt", 1, "t", false⟩ ['x']
    (by simp) (by decide)

/-- C5: with parts missing the merge fails and changes nothing; with all
parts present it records a copy (N = 1) or an in-order compose of parts
0..N-1, sets the status to COMPLETE, and succeeds whether or not the task
publish succeeds — in particular a publish failure does not roll back the
status. -/
theorem mergeChunks_spec (st : MergeState) (fileMD5 fileName : String)
    (userId : Nat) (orgTag : String) (isPublic : Bool)
    (totalChunks uploadedCount : Nat) (objectUrl : String) (kafkaOk : Bool) :
    (uploadedCount < totalChunks →
      (mergeChunks st fileMD5 fileName userId orgTag isPublic totalChunks
        uploadedCount objectUrl kafkaOk).state = st ∧
      ∃ e, (mergeChunks st fileMD5 fileName userId orgTag isPublic totalChunks
        uploadedCount objectUrl kafkaOk).outcome = Except.error e) ∧
    (totalChunks ≤ uploadedCount →
      (mergeChunks st fileMD5 fileName userId orgTag isPublic totalChunks
        uploadedCount objectUrl kafkaOk).state.status = 1 ∧
      (mergeChunks st fileMD5 fileName userId orgTag isPublic totalChunks
        uploadedCount objectUrl kafkaOk).state.merged =
        some (if totalChunks = 1 then MergeOp.copy (chunkObjectName fileMD5 0)
          else MergeOp.compose
            ((List.range totalChunks).map (chunkObjectName fileMD5))) ∧
      (mergeChunks st fileMD5 fileName userId orgTag isPublic totalChunks
        uploadedCount objectUrl kafkaOk).outcome = Except.ok objectUrl) := by
  constructor
  · intro h
    unfold mergeChunks
    rw [if_pos h]
    exact ⟨rfl, _, rfl⟩
  · intro h
    unfold mergeChunks
    rw [if_neg (by omega)]
    by_cases hk : kafkaOk <;> simp [hk]

/-- Witness for C5: a three-part upload with two parts recorded is refused;
with three parts recorded it completes even though publishing fails. -/
theorem mergeChunks_spec_witness :
    ((mergeChunks ⟨0, none, []⟩ "m" "f.txt" 1 "t" false 3 2 "u" false).state =
      ⟨0, none, []⟩ ∧
     ∃ e, (mergeChunks ⟨0, none, []⟩ "m" "f.txt" 1 "t" false 3 2 "u"
       false).outcome = Except.error e) ∧
    (mergeChunks ⟨0, none, []⟩ "m" "f.txt" 1 "t" false 3 3 "u"
      false).state.status = 1 :=
  ⟨(mergeChunks_spec ⟨0, none, []⟩ "m" "f.txt" 1 "t" false 3 2 "u" false).1
      (by decide),
   ((mergeChunks_spec ⟨0, none, []⟩ "m" "f.txt" 1 "t" false 3 3 "u" false).2
      (by decide)).1⟩

/-- C6: on failure the consumer increments the counter with a 24h TTL and
commits exactly when the incremented counter has reached 3; with the counter
store down it neither changes the counter nor commits; on success it deletes
the counter and commits. -/
theorem consumer_retry_spec (processOk redisOk : Bool) (prev : Option Nat) :
    (processOk = true →
      handleDelivery processOk redisOk prev =
        { committed := true, counter := none, ttlSet := false }) ∧
    (processOk = false → redisOk = true →
      (handleDelivery processOk redisOk prev).counter = some (prev.getD 0 + 1) ∧
      (handleDelivery processOk redisOk prev).ttlSet = true ∧
      ((handleDelivery processOk redisOk prev).committed = true ↔
        3 ≤ prev.getD 0 + 1)) ∧
    (processOk = false → redisOk = false →
      (handleDelivery processOk redisOk prev).committed = false ∧
      (handleDelivery processOk redisOk prev).counter = prev ∧
      (handleDelivery processOk redisOk prev).ttlSet = false) := by
  refine ⟨?_, ?_, ?_⟩
  · intro h; subst h; rfl
  · intro h1 h2; subst h1; subst h2
    refine ⟨rfl, rfl, ?_⟩
    simp [handleDelivery]
  · intro h1 h2; subst h1; subst h2
    exact ⟨rfl, rfl, rfl⟩

/-- Witness for C6: the third failed delivery (counter at 2) increments to 3
and commits the offset. -/
theorem consumer_retry_spec_witness :
    (handleDelivery false true (some 2)).counter = some 3 ∧
    (handleDelivery false true (some 2)).committed = true := by
  obtain ⟨hc, _ht, hcom⟩ := (consumer_retry_spec false true (some 2)).2.1 rfl rfl
  exact ⟨hc, hcom.mpr (by decide)⟩

/-- Counterexample to C7 as stated: the ADMIN caller's delete fails with
not-found (the lookup is keyed by the caller's id), and the owner's
successful delete leaves the Elasticsearch entry in place, so indexer entries
are not removed. -/
theorem deleteDocument_counterexample :
    deleteDocument exSt "a" exAdmin = Except.error "文件不存在或不属于该用户" ∧
    deleteDocument exSt "a" exOwner = Except.ok exStAfter ∧
    exStAfter.esDocs = [("a_0", exDoc)] ∧ exSt.esDocs = [("a_0", exDoc)] :=
  ⟨rfl, rfl, rfl, rfl⟩

/-- C7 as amended: `delete_document(md5, user)` succeeds iff a FileUpload row
for `(md5, user.id)` exists — only the owner can delete, the ADMIN clause
being unreachable behind the caller-keyed lookup — and on success removes the
merged object and the ChunkInfo, DocumentVector and caller's FileUpload rows,
while the indexer entries are not removed. -/
theorem deleteDocument_spec (st : DocState) (fileMD5 : String) (user : User) :
    (exceptIsOk (deleteDocument st fileMD5 user) = true ↔
      (getFileUploadRecord st.fileUploads fileMD5 user.id).isSome = true) ∧
    (∀ st2, deleteDocument st fileMD5 user = Except.ok st2 →
      st2.esDocs = st.esDocs ∧
      st2.docVectors = st.docVectors.filter (fun v => ¬ v.fileMD5 = fileMD5) ∧
      st2.chunkInfos = st.chunkInfos.filter (fun c => ¬ c.fileMD5 = fileMD5) ∧
      st2.fileUploads = st.fileUploads.filter
        (fun r => ¬ (r.fileMD5 = fileMD5 ∧ r.userId = user.id)) ∧
      ∃ record, getFileUploadRecord st.fileUploads fileMD5 user.id =
          some record ∧
        st2.minioObjects = st.minioObjects.filter
          (fun o => ¬ o = "merged/" ++ record.fileName)) := by
  cases hrec : getFileUploadRecord st.fileUploads fileMD5 user.id with
  | none =>
    have heq : deleteDocument st fileMD5 user =
        Except.error "文件不存在或不属于该用户" := by
      simp only [deleteDocument, hrec]
    constructor
    · rw [heq]
      simp [exceptIsOk]
    · intro st2 h
      rw [heq] at h
      cases h
  | some record =>
    have hfind := List.find?_some hrec
    rw [Bool.and_eq_true, beq_iff_eq, beq_iff_eq] at hfind
    have howner : record.userId = user.id := hfind.2
    have hperm : ¬ (record.userId ≠ user.id ∧ user.role ≠ "ADMIN") := by
      intro hcontra
      exact hcontra.1 howner
    have heq : deleteDocument st fileMD5 user =
        Except.ok (deleteFileUploadRecord
          { st with
            minioObjects := st.minioObjects.filter (fun o => ¬ o = "merged/" ++ record.fileName) }
          fileMD5 record.userId) := by
      simp only [deleteDocument, hrec]
      rw [if_neg hperm]
    constructor
    · rw [heq]
      simp [exceptIsOk]
    · intro st2 h
      rw [heq] at h
      injection h with h
      subst h
      refine ⟨rfl, rfl, rfl, ?_, record, rfl, rfl⟩
      show (st.fileUploads.filter
          (fun r => ¬ (r.fileMD5 = fileMD5 ∧ r.userId = record.userId))) = _
      rw [howner]

/-- Witness for C7 (amended): the owner's delete at the concrete store keeps
the index entries and clears the vector rows. -/
theorem deleteDocument_spec_witness :
    exStAfter.esDocs = exSt.esDocs ∧
    exStAfter.docVectors = exSt.docVectors.filter
      (fun v => ¬ v.fileMD5 = "a") := by
  obtain ⟨h1, h2, _⟩ := (deleteDocument_spec exSt "a" exOwner).2 exStAfter (by rfl)
  exact ⟨h1, h2⟩

/-- Counterexample to C8 as stated: a request with nonempty query and
`topK = 0` is executed (with the default 10), not rejected. -/
theorem topK_zero_counterexample :
    searchHandlerDecision "x" (some 0) = SearchHandlerResult.executed 10 := rfl

/-- C8 as amended: `top_k = 0` is not rejected; the handler replaces it with
the default 10 and executes the search (only an empty query is rejected). -/
theorem topK_zero_executes_default (query : String) (h : query ≠ "") :
    searchHandlerDecision query (some 0) = SearchHandlerResult.executed 10 := by
  unfold searchHandlerDecision
  rw [if_neg h]
  rfl

/-- Witness for C8 (amended) at a concrete nonempty query. -/
theorem topK_zero_executes_default_witness :
    searchHandlerDecision "hello" (some 0) = SearchHandlerResult.executed 10 :=
  topK_zero_executes_default "hello" (by decide)

set_option maxRecDepth 10000 in
/-- C9 (code bug at the truncation rule): a chunk of 334 Han runes is 334 code
points but 1002 UTF-8 bytes; the snippet builder cuts it at byte 1000 —
splitting the 334th rune — and appends an ellipsis, while the specified
1000-code-point rule leaves the text whole, so the computed and specified
snippets differ. The surrounding line format still holds: index 1-based, empty
filename rendered as "unknown". -/
theorem buildSnippet_truncates_bytes :
    (utf8Bytes (String.mk (List.replicate 334 '中'))).length = 1002 ∧
    (List.replicate 334 '中').length = 334 ∧
    buildSnippet (utf8Bytes (String.mk (List.replicate 334 '中'))) =
      (utf8Bytes (String.mk (List.replicate 334 '中'))).take 1000 ++
        utf8Bytes "…" ∧
    buildSnippetSpec (List.replicate 334 '中') = List.replicate 334 '中' ∧
    buildSnippet (utf8Bytes (String.mk (List.replicate 334 '中'))) ≠
      utf8Bytes (String.mk (buildSnippetSpec (List.replicate 334 '中'))) ∧
    contextLine 0 ⟨[], utf8Bytes (String.mk (List.replicate 334 '中'))⟩ =
      utf8Bytes "[1] (unknown) " ++
        buildSnippet (utf8Bytes (String.mk (List.replicate 334 '中'))) ++
        utf8Bytes "\n" := by
  decide

end ShiTu

